import Mathlib

/-!
Shallow embedding of `src/main2.py` (Scenti Piano production server).

Pure fragments of the Python source are translated into executable Lean
definitions:

* Python `float` values are modelled by `PyFloat`: an exact rational
  (`fin`) extended with the IEEE special values `inf`, `-inf` and `nan`.
  Arithmetic on finite values is exact rational arithmetic (the spec
  states sums only up to floating rounding); the comparison and
  propagation rules for the special values follow IEEE-754, which Python
  floats implement exactly.
* The filesystem is a predicate `String → Bool` (does this path exist),
  directories are association lists of (filename, mtime).
* The serial port is a four-valued mode (never opened / not open /
  open and writable / open but write raises).
* Outcomes of outbound HTTP calls (`httpx`) are oracles passed in as
  arguments, distinguishing a status response, an `httpx.RequestError`,
  and any other raised exception.
-/

namespace SosHw

/-- Rational addition, spelled with `mkRat` so that the kernel can
evaluate it on closed inputs (`Rat.add` is irreducible); proved equal to
`· + ·` in `ratAdd_eq`. -/
def ratAdd (a b : ℚ) : ℚ :=
  mkRat (a.num * b.den + b.num * a.den) (a.den * b.den)

/-- Model of a Python `float`: exact rational, or one of the IEEE special
values. -/
inductive PyFloat where
  | fin (q : ℚ)
  | pinf
  | ninf
  | nan
deriving DecidableEq, Repr

namespace PyFloat

/-- IEEE addition on `PyFloat` (exact on finite values). -/
def add : PyFloat → PyFloat → PyFloat
  | fin a, fin b => fin (ratAdd a b)
  | fin _, pinf => pinf
  | fin _, ninf => ninf
  | pinf, fin _ => pinf
  | ninf, fin _ => ninf
  | pinf, pinf => pinf
  | ninf, ninf => ninf
  | pinf, ninf => nan
  | ninf, pinf => nan
  | nan, _ => nan
  | _, nan => nan

/-- IEEE strict comparison `x < y` on `PyFloat` (`nan` compares false). -/
def lt : PyFloat → PyFloat → Bool
  | fin a, fin b => decide (a < b)
  | fin _, pinf => true
  | fin _, ninf => false
  | pinf, fin _ => false
  | ninf, fin _ => true
  | pinf, pinf => false
  | ninf, ninf => false
  | ninf, pinf => true
  | pinf, ninf => false
  | nan, _ => false
  | _, nan => false

/-- IEEE comparison `x ≤ y` on `PyFloat` (`nan` compares false). -/
def le : PyFloat → PyFloat → Bool
  | fin a, fin b => decide (a ≤ b)
  | fin _, pinf => true
  | fin _, ninf => false
  | pinf, fin _ => false
  | ninf, fin _ => true
  | pinf, pinf => true
  | ninf, ninf => true
  | ninf, pinf => true
  | pinf, ninf => false
  | nan, _ => false
  | _, nan => false

/-- Finite part of a `PyFloat` (used only in theorem statements). -/
def finPart : PyFloat → ℚ
  | fin q => q
  | _ => 0

end PyFloat

theorem ratAdd_eq (a b : ℚ) : ratAdd a b = a + b := by
  rw [ratAdd, Rat.mkRat_eq_divInt]
  push_cast
  conv_rhs => rw [← Rat.num_divInt_den a, ← Rat.num_divInt_den b]
  rw [Rat.divInt_add_divInt _ _
    (Int.natCast_ne_zero.mpr a.den_nz) (Int.natCast_ne_zero.mpr b.den_nz)]

theorem PyFloat.add_fin (a b : ℚ) :
    PyFloat.add (.fin a) (.fin b) = .fin (a + b) := by
  rw [PyFloat.add, ratAdd_eq]

/-! ### Constants from `main2.py` -/

/-- `PUMP_MAP` of `main2.py`: fixed ingredient-name → pump-index map. -/
def PUMP_MAP : List (String × Nat) :=
  [("오미자", 0), ("감나무", 1), ("은행나무", 2), ("경포대", 3), ("차수국", 4),
   ("태백산맥", 5), ("메밀꽃", 6), ("감자꽃", 7), ("안목해변", 8), ("소나무", 9)]

/-- `NAME_SET = set(PUMP_MAP.keys())`. -/
def NAME_SET : List String := PUMP_MAP.map Prod.fst

/-- `ALLOWED_MIN_ML = 14.0`. -/
def ALLOWED_MIN_ML : ℚ := 14

/-- `ALLOWED_MAX_ML = 15.1`. -/
def ALLOWED_MAX_ML : ℚ := mkRat 151 10

/-- `MIN_ING = 1`. -/
def MIN_ING : Nat := 1

/-- `MAX_ING = 7`. -/
def MAX_ING : Nat := 7

/-- `KEEP_IMAGES = 10`. -/
def KEEP_IMAGES : Nat := 10

/-- `QR_RET_SEC = 3` (debounce window, seconds). -/
def QR_RET_SEC : ℚ := 3

/-- `VALID_QR` fixed known-location set. -/
def VALID_QR : List String :=
  ["배롱나무", "감나무", "은행나무", "경포대", "차수국",
   "태백산맥", "밤장미", "벚꽃", "안목해변", "소나무"]

/-! ### Request, state and serial model -/

/-- `PerfumeRequest` pydantic model: `recipe` is a Python dict, modelled as
an association list in insertion order (Python dicts preserve insertion
order; keys are distinct, though none of the proofs below need that). -/
structure PerfumeRequest where
  name : String
  recipe : List (String × PyFloat)
  callbackUrl : String
  productionId : String
deriving DecidableEq, Repr

/-- The process-wide single-slot production state: the six globals
`current_template`, `current_callback_url`, `current_production_id`,
`current_perfume_name`, `current_is_custom`, `current_recipe`. -/
structure ProdState where
  current_template : Option String
  current_callback_url : Option String
  current_production_id : Option String
  current_perfume_name : Option String
  current_is_custom : Bool
  current_recipe : Option (List (String × PyFloat))
deriving DecidableEq, Repr

/-- Condition of the global `ser` object at request time:
`absent` (`ser is None`), `notOpen` (`not ser.is_open`), `openOk`
(write succeeds), `openFails` (`ser.write` raises). -/
inductive SerialMode where
  | absent
  | notOpen
  | openOk
  | openFails
deriving DecidableEq, Repr

/-- Validation-error classes of the `/api/production` handler, in the
order the handler checks them. -/
inductive ErrKind where
  | emptyRecipe
  | unknownIngredient (ks : List String)
  | countOutOfRange (n : Nat)
  | invalidAmount (name : String)
  | totalOutOfRange
deriving DecidableEq, Repr

/-- Responses of the `/api/production` handler. `uncaughtKeyError` models
a `KeyError` escaping from `PUMP_MAP[name]` (unreachable after the
unknown-ingredient check); `uncaughtFmtError` models `int()` raising on a
non-finite float inside `_fmt` (unreachable after the total check). -/
inductive Resp where
  | err400 (k : ErrKind)
  | err500
  | ok (pid : String)
  | uncaughtKeyError (name : String)
  | uncaughtFmtError
deriving DecidableEq, Repr

/-! ### The validation / accumulation loop (step 3 of the handler) -/

/-- Result of the handler's value loop. -/
inductive LoopResult where
  | err (k : ErrKind)
  | keyError (name : String)
  | ok (pumps : List PyFloat) (total : PyFloat)
deriving DecidableEq, Repr

/-- Embedding of the loop
`for name, ml in req.recipe.items(): ...` of `production`
(`main2.py` lines 545-559).  `float(ml)` cannot raise since `ml` is
already a float (pydantic has coerced it), so the non-numeric branch of
`InvalidAmount` is unreachable; the negative check runs before the
`PUMP_MAP[name]` subscript, exactly as in the source. -/
def valLoop : List (String × PyFloat) → List PyFloat → PyFloat → LoopResult
  | [], pumps, total => .ok pumps total
  | (name, ml) :: rest, pumps, total =>
    if PyFloat.lt ml (.fin 0) then .err (.invalidAmount name)
    else
      match List.lookup name PUMP_MAP with
      | none => .keyError name
      | some i =>
        valLoop rest (pumps.set i (PyFloat.add (pumps.getD i (.fin 0)) ml))
          (PyFloat.add total ml)

/-- `pumps = [0.0] * 10`. -/
def initPumps : List PyFloat := List.replicate 10 (.fin 0)

/-! ### Wire formatting (`_fmt`, `main2.py` lines 370-378) -/

/-- Round-half-even of the fraction `a / b` (`b > 0`) to an integer, the
rounding used by Python's fixed-point `format` (IEEE default rounding):
`f = ⌊a/b⌋`, remainder `r = a - b⬝f ∈ [0, b)`; round down when `r < b/2`,
up when `r > b/2`, to the even neighbour on a tie. -/
def roundHalfEvenDiv (a b : ℤ) : ℤ :=
  let f := a.fdiv b
  let r := a - b * f
  if 2 * r < b then f
  else if b < 2 * r then f + 1
  else if f % 2 = 0 then f else f + 1

/-- Left-pad a digit string with zeros to width `k`. -/
def padZeros (s : List Char) (k : Nat) : List Char :=
  List.replicate (k - s.length) '0' ++ s

/-- Python `f"{x:.kf}"` on an exact rational: fixed-point rendering with
`k` decimals, round-half-even (`q⬝10^k` is the fraction
`q.num⬝10^k / q.den`). -/
def fmtFixed (q : ℚ) (k : Nat) : String :=
  let n := roundHalfEvenDiv (q.num * Int.ofNat (10 ^ k)) (Int.ofNat q.den)
  let sign := if n < 0 then [Char.ofNat 45] else []
  let m := n.natAbs
  let ip := (Nat.repr (m / 10 ^ k)).data
  let fp := padZeros (Nat.repr (m % 10 ^ k)).data k
  String.mk (sign ++ ip ++ [Char.ofNat 46] ++ fp)

/-- Python `s.rstrip("0")`: drop trailing `'0'` characters. -/
def rstripZeros (s : String) : String :=
  String.mk ((s.data.reverse.dropWhile (fun c => c == '0')).reverse)

/-- One value of `_fmt`: `f"{x:.1f}"` when `float(int(x)) == float(x)`
(i.e. the value is an exact integer), else `f"{x:.2f}".rstrip("0")` with
`".0"` appended when no `"."` remains.  On a non-finite value `int(x)`
raises (`OverflowError`/`ValueError`), modelled as `none`. -/
def fmtOne (x : PyFloat) : Option String :=
  match x with
  | .fin q =>
    if q.den = 1 then some (fmtFixed q 1)
    else
      let s := rstripZeros (fmtFixed q 2)
      some (if s.data.contains (Char.ofNat 46) then s else s ++ ".0")
  | _ => none

/-- `_fmt(vs)`: format every entry of the pump vector in order; a raising
entry aborts the whole call (models the uncaught exception). -/
def fmt : List PyFloat → Option (List String)
  | [] => some []
  | x :: rest =>
    match fmtOne x, fmt rest with
    | some s, some out => some (s :: out)
    | _, _ => none

/-- `",".join(_fmt(pumps)) + "\n"`: the line written to the serial link. -/
def wireLine (pumps : List PyFloat) : Option String :=
  (fmt pumps).map (fun fields => String.intercalate "," fields ++ "\n")

/-! ### Template selection (`select_template`, `main2.py` lines 117-147) -/

/-- `name.replace(" ", "")`: remove every space. -/
def removeSpaces (s : String) : String :=
  String.mk (s.data.filter (fun c => c ≠ ' '))

/-- `_count_used_ingredients`: `len(recipe)` clamped to `[1, 7]`. -/
def countUsedIngredients (recipe : List (String × PyFloat)) : Nat :=
  let n := recipe.length
  let n := if n < 1 then 1 else n
  if n > 7 then 7 else n

/-- Path of the preset asset `img/original/<clean>.png`. -/
def origPath (clean : String) : String := "img/original/" ++ clean ++ ".png"

/-- Path of the custom asset `img/custom/<n>.jpg`. -/
def customPathJpg (n : Nat) : String := "img/custom/" ++ Nat.repr n ++ ".jpg"

/-- Path of the custom asset `img/custom/<n>.png`. -/
def customPathPng (n : Nat) : String := "img/custom/" ++ Nat.repr n ++ ".png"

/-- `select_template(name, recipe)` over a filesystem-existence oracle
`fs`.  Note the source computes `clean = name.replace(" ", "")` but tests
the raw `name` against `NAME_SET`; `clean` is used only as the file key. -/
def select_template (fs : String → Bool) (name : String)
    (recipe : List (String × PyFloat)) : Option String :=
  let clean := removeSpaces name
  if name ∈ NAME_SET then
    if fs (origPath clean) then some (origPath clean) else none
  else
    let n := countUsedIngredients recipe
    if fs (customPathJpg n) then some (customPathJpg n)
    else if fs (customPathPng n) then some (customPathPng n)
    else none

/-! ### The `/api/production` handler (`production`, lines 502-614) -/

/-- The chained comparison `ALLOWED_MIN_ML <= total <= ALLOWED_MAX_ML`. -/
def totalInRange (total : PyFloat) : Prop :=
  PyFloat.le (.fin ALLOWED_MIN_ML) total = true ∧
  PyFloat.le total (.fin ALLOWED_MAX_ML) = true

instance (total : PyFloat) : Decidable (totalInRange total) := by
  unfold totalInRange
  infer_instance

/-- The full handler: given the filesystem oracle, the serial-port mode,
the current global state and the request, produce the HTTP response, the
new global state, and the list of lines written to the serial link. -/
def production (fs : String → Bool) (serial : SerialMode) (st : ProdState)
    (req : PerfumeRequest) : Resp × ProdState × List String :=
  if req.recipe = [] then (.err400 .emptyRecipe, st, [])
  else
    let unknowns := (req.recipe.map Prod.fst).filter
      (fun k => (List.lookup k PUMP_MAP).isNone)
    if unknowns ≠ [] then (.err400 (.unknownIngredient unknowns), st, [])
    else if ¬ (MIN_ING ≤ req.recipe.length ∧ req.recipe.length ≤ MAX_ING) then
      (.err400 (.countOutOfRange req.recipe.length), st, [])
    else
      match valLoop req.recipe initPumps (.fin 0) with
      | .err k => (.err400 k, st, [])
      | .keyError n => (.uncaughtKeyError n, st, [])
      | .ok pumps total =>
        if ¬ totalInRange total then
          (.err400 .totalOutOfRange, st, [])
        else
          let st' : ProdState :=
            { current_template := select_template fs req.name req.recipe
              current_callback_url := some req.callbackUrl
              current_production_id := some req.productionId
              current_perfume_name := some req.name
              current_is_custom := !(decide (req.name ∈ NAME_SET))
              current_recipe := some req.recipe }
          match wireLine pumps with
          | none => (.uncaughtFmtError, st', [])
          | some line =>
            match serial with
            | .absent => (.ok req.productionId, st', [])
            | .notOpen => (.ok req.productionId, st', [])
            | .openOk => (.ok req.productionId, st', [line])
            | .openFails => (.err500, st', [])

/-! ### Receipt retention (`_prune_old` / `overlay_now` /
`compose_custom_receipt`, lines 150-178 and 292-338).  A directory is an
association list of (filename, mtime); filenames are unique
(`uuid.uuid4().hex`). -/

/-- Boolean list-prefix test (helper for the glob). -/
def listIsPre : List Char → List Char → Bool
  | [], _ => true
  | _ :: _, [] => false
  | a :: as, b :: bs => a == b && listIsPre as bs

/-- The glob `receipt_*.png` of `_prune_old`. -/
def matchesPruneGlob (fname : String) : Bool :=
  listIsPre ("receipt_").data fname.data &&
    listIsPre (".png").data.reverse fname.data.reverse

/-- `_prune_old(folder, keep)`: delete, among the files matching
`receipt_*.png` sorted by mtime, all but the `keep` most recent
(`sorted(...)[:-keep]` is unlinked). -/
def prune_old (dir : List (String × Nat)) (keep : Nat) : List (String × Nat) :=
  let matching := dir.filter (fun f => matchesPruneGlob f.1)
  let sortedM := List.insertionSort (fun a b => a.2 ≤ b.2) matching
  let doomed := (sortedM.take (sortedM.length - keep)).map Prod.fst
  dir.filter (fun f => ¬ doomed.contains f.1)

/-- Filesystem effect of one `overlay_now` call: save
`receipt_<unique>.jpg` (note: **jpg**) at mtime `t`, then prune. -/
def overlay_now_save (dir : List (String × Nat)) (unique : String) (t : Nat) :
    List (String × Nat) :=
  prune_old (dir ++ [("receipt_" ++ unique ++ ".jpg", t)]) KEEP_IMAGES

/-- Filesystem effect of one `compose_custom_receipt` call: save
`receipt_<unique>.png`, then prune. -/
def compose_custom_save (dir : List (String × Nat)) (unique : String) (t : Nat) :
    List (String × Nat) :=
  prune_old (dir ++ [("receipt_" ++ unique ++ ".png", t)]) KEEP_IMAGES

/-- `n` successive `overlay_now` saves into an initially empty directory,
with distinct names and increasing mtimes. -/
def overlayRun : Nat → List (String × Nat)
  | 0 => []
  | n + 1 => overlay_now_save (overlayRun n) (Nat.repr n) n

/-- `n` successive `compose_custom_receipt` saves into an initially empty
directory, with distinct names and increasing mtimes. -/
def composeRun : Nat → List (String × Nat)
  | 0 => []
  | n + 1 => compose_custom_save (composeRun n) (Nat.repr n) n

/-! ### Receipt-table ordering (`_stable_sort_by_amount`, lines 208-212).
Called from `draw_recipe_block` on the saved recipe, whose values are
finite (they passed validation), so the embedding takes exact rationals. -/

/-- The sort key ordering of `sorted(range(len(items)),
key=lambda i: (-float(items[i][1]), i))`: lexicographic on
(negated value, original index), as a relation on index-item pairs. -/
def amountKeyLe (a b : Nat × String × ℚ) : Prop :=
  b.2.2 < a.2.2 ∨ (a.2.2 = b.2.2 ∧ a.1 ≤ b.1)

instance : DecidableRel amountKeyLe := fun a b =>
  inferInstanceAs (Decidable (b.2.2 < a.2.2 ∨ (a.2.2 = b.2.2 ∧ a.1 ≤ b.1)))

instance : IsTotal (Nat × String × ℚ) amountKeyLe where
  total a b := by
    rcases lt_trichotomy a.2.2 b.2.2 with h | h | h
    · exact Or.inr (Or.inl h)
    · rcases Nat.le_total a.1 b.1 with h2 | h2
      · exact Or.inl (Or.inr ⟨h, h2⟩)
      · exact Or.inr (Or.inr ⟨h.symm, h2⟩)
    · exact Or.inl (Or.inl h)

instance : IsTrans (Nat × String × ℚ) amountKeyLe where
  trans a b c hab hbc := by
    rcases hab with h1 | ⟨h1, h1i⟩ <;> rcases hbc with h2 | ⟨h2, h2i⟩
    · exact Or.inl (h2.trans h1)
    · exact Or.inl (h2 ▸ h1)
    · exact Or.inl (h2.trans_eq h1.symm)
    · exact Or.inr ⟨h1.trans h2, h1i.trans h2i⟩

/-- The sorted, index-decorated item list used by
`_stable_sort_by_amount` (Python's `sorted` by the injective key
`(-value, index)`; any correct sort of a strict total key agrees). -/
def stableSortEnum (recipe : List (String × ℚ)) : List (Nat × String × ℚ) :=
  List.insertionSort amountKeyLe recipe.enum

/-- `_stable_sort_by_amount(recipe)`: items in descending value order,
ties in input order. -/
def stable_sort_by_amount (recipe : List (String × ℚ)) : List (String × ℚ) :=
  (stableSortEnum recipe).map Prod.snd

/-! ### Completion handler (`serial_done_worker` and its callees,
lines 387-486).  Outcomes of the two outbound HTTP calls are oracles; the
events record which steps actually execute. -/

/-- Outcome of one `httpx` call: a response with a status code, an
`httpx.RequestError`, or any other raised exception. -/
inductive HttpOutcome where
  | status (n : Nat)
  | transportError
  | otherError
deriving DecidableEq, Repr

/-- Oracle for the two calls made by `serial_done_worker`. -/
structure DoneWorld where
  patchOutcome : HttpOutcome
  postOutcome : HttpOutcome
deriving DecidableEq, Repr

/-- Observable steps of the completion handler. -/
inductive Ev where
  | cartridgePatch
  | productionCallback
  | printStep
deriving DecidableEq, Repr

/-- `notify_cartridge_used` (lines 387-399): performs the PATCH and
catches every exception (`except Exception`), returning
`r.status_code == 200` on a response and `False` on an exception.  It
never raises. -/
def notify_cartridge_used (w : HttpOutcome) : Bool × List Ev :=
  (match w with
   | .status n => n = 200
   | .transportError => false
   | .otherError => false, [Ev.cartridgePatch])

/-- `handle_production_done` (lines 401-415): performs the POST and
catches only `httpx.RequestError`; any other exception propagates to the
caller.  The boolean records whether it raised. -/
def handle_production_done (w : HttpOutcome) : Bool × List Ev :=
  (match w with
   | .status _ => false
   | .transportError => false
   | .otherError => true, [Ev.productionCallback])

/-- `serial_done_worker` (lines 439-486): the try-block runs the
cartridge PATCH (when a template, hence a fragrance name, is present)
then the production callback (when both callback URL and production id
are present); the outer `except` swallows anything the try-block raises,
and the `finally:` block — the print step — always runs. -/
def serial_done_worker (st : ProdState) (w : DoneWorld) : List Ev :=
  let patchEvs :=
    if st.current_template.isSome then (notify_cartridge_used w.patchOutcome).2
    else []
  let postEvs :=
    if st.current_callback_url.isSome ∧ st.current_production_id.isSome then
      (handle_production_done w.postOutcome).2
    else []
  (patchEvs ++ postEvs) ++ [Ev.printStep]

/-! ### QR handling (`handle_qr`, lines 344-357) -/

/-- One character of the pattern `^[ㄱ-힝\w ]+$`: the explicit
Unicode range, a word character (`\w`, modelled by alphanumerics and the
underscore), or a space. -/
def qrPatChar (c : Char) : Bool :=
  (0x3131 ≤ c.toNat && c.toNat ≤ 0xD79D) || c.isAlphanum || c == '_' || c == ' '

/-- `QR_PAT.match(qr)`: nonempty and every character permitted. -/
def qrPatMatch (s : String) : Bool :=
  !s.isEmpty && s.data.all qrPatChar

/-- `last_qr_sent.get(qr, 0)`. -/
def lastGet (m : List (String × ℚ)) (k : String) : ℚ :=
  (List.lookup k m).getD 0

/-- `last_qr_sent[qr] = now`. -/
def lastSet (m : List (String × ℚ)) (k : String) (v : ℚ) : List (String × ℚ) :=
  (k, v) :: m.filter (fun p => p.1 ≠ k)

/-- `handle_qr(qr)` given the clock `now` and the outcome of the lookup
POST: returns whether the value was forwarded and the new
`last_qr_sent` table.  The timestamp is recorded only on a sub-400
status; `httpx.RequestError` is caught and leaves the table unchanged. -/
def handle_qr (last : List (String × ℚ)) (qr : String) (now : ℚ)
    (resp : HttpOutcome) : Bool × List (String × ℚ) :=
  if ¬ (qr ∈ VALID_QR) ∨ qrPatMatch qr = false then (false, last)
  else if now - lastGet last qr < QR_RET_SEC then (false, last)
  else
    match resp with
    | .status n => if n < 400 then (true, lastSet last qr now) else (true, last)
    | .transportError => (true, last)
    | .otherError => (true, last)

/-! ## Helper definitions for the theorems -/

/-- A recipe of exact rational amounts, as the handler receives it
(every Python float value is finite). -/
def finRecipe (r : List (String × ℚ)) : List (String × PyFloat) :=
  r.map (fun p => (p.1, PyFloat.fin p.2))

/-- Rational-level view of the accumulation performed by the value loop:
add each amount into the slot at its name's pump index. -/
def encodeQ : List (String × ℚ) → List ℚ → List ℚ
  | [], v => v
  | (n, q) :: rest, v =>
    match List.lookup n PUMP_MAP with
    | none => encodeQ rest v
    | some i => encodeQ rest (v.set i (v.getD i 0 + q))

/-- Sum of the amounts of the recipe entries mapped to pump `j`. -/
def slotSum (r : List (String × ℚ)) (j : Nat) : ℚ :=
  ((r.filter (fun p => List.lookup p.1 PUMP_MAP == some j)).map Prod.snd).sum

/-! ## Helper lemmas -/

theorem mem_of_lookup {α β : Type} [BEq α] {a : α} {b : β} :
    ∀ {l : List (α × β)}, List.lookup a l = some b → b ∈ l.map Prod.snd := by
  intro l
  induction l with
  | nil => intro h; simp [List.lookup] at h
  | cons p t ih =>
    obtain ⟨k, v⟩ := p
    intro h
    rw [List.lookup] at h
    split at h
    · simp only [Option.some.injEq] at h
      simp [h]
    · simp [ih h]

theorem pumpIdx_lt_ten {n : String} {i : Nat}
    (h : List.lookup n PUMP_MAP = some i) : i < 10 := by
  have hm := mem_of_lookup h
  simp [PUMP_MAP] at hm
  omega

theorem getD_set_self {α : Type} (l : List α) {i : Nat} (h : i < l.length)
    (x d : α) : (l.set i x).getD i d = x := by
  simp [List.getD_eq_getElem?_getD, List.getElem?_set_self h]

theorem getD_set_ne {α : Type} (l : List α) {i j : Nat} (h : i ≠ j)
    (x d : α) : (l.set i x).getD j d = l.getD j d := by
  simp [List.getD_eq_getElem?_getD, List.getElem?_set_ne h]

theorem getD_replicate_zero (n j : Nat) :
    (List.replicate n (0 : ℚ)).getD j 0 = 0 := by
  simp [List.getD_eq_getElem?_getD]

theorem finRecipe_cons (n : String) (q : ℚ) (rest : List (String × ℚ)) :
    finRecipe ((n, q) :: rest) = (n, PyFloat.fin q) :: finRecipe rest := rfl

theorem valLoop_finRecipe (r : List (String × ℚ)) :
    ∀ (v : List ℚ) (t : ℚ),
    (∀ p ∈ r, (List.lookup p.1 PUMP_MAP).isSome) →
    (∀ p ∈ r, 0 ≤ p.2) →
    valLoop (finRecipe r) (v.map PyFloat.fin) (.fin t)
      = .ok ((encodeQ r v).map PyFloat.fin) (.fin (t + (r.map Prod.snd).sum)) := by
  induction r with
  | nil => intro v t _ _; simp [finRecipe, valLoop, encodeQ]
  | cons p rest ih =>
    obtain ⟨n, q⟩ := p
    intro v t hk hnn
    have hq : (0 : ℚ) ≤ q := hnn (n, q) (List.mem_cons_self _ _)
    have hks : (List.lookup n PUMP_MAP).isSome :=
      hk (n, q) (List.mem_cons_self _ _)
    obtain ⟨i, hi⟩ := Option.isSome_iff_exists.mp hks
    have hlt : PyFloat.lt (.fin q) (.fin 0) = false := by
      simp [PyFloat.lt, not_lt.mpr hq]
    rw [finRecipe_cons]
    simp only [valLoop, hlt, Bool.false_eq_true, if_false, hi]
    have hgd : (List.map PyFloat.fin v).getD i (PyFloat.fin 0)
        = PyFloat.fin (v.getD i 0) := List.getD_map v 0 PyFloat.fin
    rw [hgd, PyFloat.add_fin, PyFloat.add_fin, ← List.map_set]
    rw [ih (v.set i (v.getD i 0 + q)) (t + q)
      (fun p hp => hk p (List.mem_cons_of_mem _ hp))
      (fun p hp => hnn p (List.mem_cons_of_mem _ hp))]
    have henc : encodeQ ((n, q) :: rest) v
        = encodeQ rest (v.set i (v.getD i 0 + q)) := by
      simp [encodeQ, hi]
    rw [← henc]
    simp [add_assoc]

theorem encodeQ_length (r : List (String × ℚ)) :
    ∀ v : List ℚ, (encodeQ r v).length = v.length := by
  induction r with
  | nil => intro v; simp [encodeQ]
  | cons p rest ih =>
    obtain ⟨n, q⟩ := p
    intro v
    cases hi : List.lookup n PUMP_MAP with
    | none => simp [encodeQ, hi, ih]
    | some i => simp [encodeQ, hi, ih]

theorem encodeQ_getD (r : List (String × ℚ)) :
    ∀ (v : List ℚ) (j : Nat),
    (∀ p ∈ r, (List.lookup p.1 PUMP_MAP).isSome) →
    v.length = 10 → j < 10 →
    (encodeQ r v).getD j 0 = v.getD j 0 + slotSum r j := by
  induction r with
  | nil => intro v j _ _ _; simp [encodeQ, slotSum]
  | cons p rest ih =>
    obtain ⟨n, q⟩ := p
    intro v j hk hlen hj
    have hks : (List.lookup n PUMP_MAP).isSome :=
      hk (n, q) (List.mem_cons_self _ _)
    obtain ⟨i, hi⟩ := Option.isSome_iff_exists.mp hks
    have hilt : i < 10 := pumpIdx_lt_ten hi
    have hrest : ∀ p ∈ rest, (List.lookup p.1 PUMP_MAP).isSome :=
      fun p hp => hk p (List.mem_cons_of_mem _ hp)
    have hstep : encodeQ ((n, q) :: rest) v
        = encodeQ rest (v.set i (v.getD i 0 + q)) := by
      simp [encodeQ, hi]
    rw [hstep, ih _ j hrest (by simp [hlen]) hj]
    by_cases hij : i = j
    · subst hij
      rw [getD_set_self v (by omega) _ _]
      have : slotSum ((n, q) :: rest) i = q + slotSum rest i := by
        simp [slotSum, List.filter_cons, hi]
      rw [this]; ring
    · rw [getD_set_ne v hij]
      have : slotSum ((n, q) :: rest) j = slotSum rest j := by
        simp only [slotSum, List.filter_cons]
        have : (List.lookup n PUMP_MAP == some j) = false := by
          simp [hi, hij]
        simp [this]
      rw [this]

theorem sum_set_rat :
    ∀ (v : List ℚ) (i : Nat) (x : ℚ), i < v.length →
    (v.set i x).sum = v.sum - v.getD i 0 + x := by
  intro v
  induction v with
  | nil => intro i x h; simp at h
  | cons a t ih =>
    intro i x h
    cases i with
    | zero => simp only [List.set, List.sum_cons, List.getD_cons_zero]; ring
    | succ k =>
      have hk : k < t.length := by simpa using h
      simp only [List.set, List.sum_cons, ih k x hk]
      rw [List.getD_cons_succ]
      ring

theorem encodeQ_sum (r : List (String × ℚ)) :
    ∀ v : List ℚ,
    (∀ p ∈ r, (List.lookup p.1 PUMP_MAP).isSome) →
    v.length = 10 →
    (encodeQ r v).sum = v.sum + (r.map Prod.snd).sum := by
  induction r with
  | nil => intro v _ _; simp [encodeQ]
  | cons p rest ih =>
    obtain ⟨n, q⟩ := p
    intro v hk hlen
    have hks : (List.lookup n PUMP_MAP).isSome :=
      hk (n, q) (List.mem_cons_self _ _)
    obtain ⟨i, hi⟩ := Option.isSome_iff_exists.mp hks
    have hilt : i < 10 := pumpIdx_lt_ten hi
    have hstep : encodeQ ((n, q) :: rest) v
        = encodeQ rest (v.set i (v.getD i 0 + q)) := by
      simp [encodeQ, hi]
    rw [hstep, ih _ (fun p hp => hk p (List.mem_cons_of_mem _ hp)) (by simp [hlen]),
      sum_set_rat v i _ (by omega)]
    simp; ring

theorem slotSum_nonneg (r : List (String × ℚ)) (j : Nat)
    (hnn : ∀ p ∈ r, 0 ≤ p.2) : 0 ≤ slotSum r j := by
  apply List.sum_nonneg
  intro x hx
  simp only [slotSum, List.mem_map] at hx
  obtain ⟨p, hp, rfl⟩ := hx
  exact hnn p (List.mem_of_mem_filter hp)

theorem initPumps_eq_map : initPumps = (List.replicate 10 (0 : ℚ)).map PyFloat.fin := by
  simp [initPumps, List.map_replicate]

/-- `total` as the handler computes it when no check aborts the loop:
left fold of IEEE addition over the recipe values, starting at `0.0`. -/
def pyTotal (vals : List PyFloat) : PyFloat := vals.foldl PyFloat.add (.fin 0)

/-- The claim's list of validation failures: empty recipe, unknown
ingredient name, ingredient count outside `[MIN_ING, MAX_ING]`, negative
amount, or total outside `[ALLOWED_MIN_ML, ALLOWED_MAX_ML]`.  (A
non-numeric amount cannot reach the handler: pydantic has already coerced
every value to a float.) -/
def failsValidation (req : PerfumeRequest) : Prop :=
  req.recipe = [] ∨
  (∃ p ∈ req.recipe, List.lookup p.1 PUMP_MAP = none) ∨
  req.recipe.length < MIN_ING ∨ MAX_ING < req.recipe.length ∨
  (∃ p ∈ req.recipe, PyFloat.lt p.2 (.fin 0) = true) ∨
  ¬ totalInRange (pyTotal (req.recipe.map Prod.snd))

instance (req : PerfumeRequest) : Decidable (failsValidation req) := by
  unfold failsValidation
  infer_instance

theorem valLoop_no_neg_ok :
    ∀ (r : List (String × PyFloat)) (pumps : List PyFloat) (t : PyFloat),
    (∀ p ∈ r, (List.lookup p.1 PUMP_MAP).isSome) →
    (∀ p ∈ r, PyFloat.lt p.2 (.fin 0) = false) →
    ∃ pumps', valLoop r pumps t = .ok pumps' ((r.map Prod.snd).foldl PyFloat.add t) := by
  intro r
  induction r with
  | nil => intro pumps t _ _; exact ⟨pumps, rfl⟩
  | cons p rest ih =>
    obtain ⟨n, ml⟩ := p
    intro pumps t hk hnn
    have hlt : PyFloat.lt ml (.fin 0) = false := hnn (n, ml) (List.mem_cons_self _ _)
    obtain ⟨i, hi⟩ := Option.isSome_iff_exists.mp
      (hk (n, ml) (List.mem_cons_self _ _))
    obtain ⟨pumps', hp⟩ := ih (pumps.set i (PyFloat.add (pumps.getD i (.fin 0)) ml))
      (PyFloat.add t ml)
      (fun p hp => hk p (List.mem_cons_of_mem _ hp))
      (fun p hp => hnn p (List.mem_cons_of_mem _ hp))
    refine ⟨pumps', ?_⟩
    simp only [valLoop, hlt, Bool.false_eq_true, if_false, hi, hp, List.map_cons,
      List.foldl_cons]

theorem valLoop_first_neg :
    ∀ (r : List (String × PyFloat)) (pumps : List PyFloat) (t : PyFloat),
    (∃ p ∈ r, PyFloat.lt p.2 (.fin 0) = true) →
    (∀ p ∈ r, (List.lookup p.1 PUMP_MAP).isSome) →
    ∃ n, valLoop r pumps t = .err (.invalidAmount n) := by
  intro r
  induction r with
  | nil => intro pumps t hex _; simp at hex
  | cons p rest ih =>
    obtain ⟨n, ml⟩ := p
    intro pumps t hex hk
    cases hlt : PyFloat.lt ml (.fin 0) with
    | true => exact ⟨n, by simp [valLoop, hlt]⟩
    | false =>
      obtain ⟨i, hi⟩ := Option.isSome_iff_exists.mp
        (hk (n, ml) (List.mem_cons_self _ _))
      have hrest : ∃ p ∈ rest, PyFloat.lt p.2 (.fin 0) = true := by
        obtain ⟨p, hp, hneg⟩ := hex
        rcases List.mem_cons.mp hp with rfl | hp'
        · rw [hlt] at hneg; exact absurd hneg (by simp)
        · exact ⟨p, hp', hneg⟩
      obtain ⟨m, hm⟩ := ih (pumps.set i (PyFloat.add (pumps.getD i (.fin 0)) ml))
        (PyFloat.add t ml) hrest (fun p hp => hk p (List.mem_cons_of_mem _ hp))
      exact ⟨m, by simp only [valLoop, hlt, Bool.false_eq_true, if_false, hi, hm]⟩

/-- Master case analysis of the handler: a request either fails
validation and gets a 400 with no state change and no serial write, or
passes and never yields a 400. -/
theorem production_master (fs : String → Bool) (serial : SerialMode)
    (st : ProdState) (req : PerfumeRequest) :
    (failsValidation req ∧
      ∃ k, production fs serial st req = (.err400 k, st, [])) ∨
    (¬ failsValidation req ∧
      ∀ k, (production fs serial st req).1 ≠ .err400 k) := by
  by_cases h1 : req.recipe = []
  · exact Or.inl ⟨Or.inl h1, ⟨.emptyRecipe, by simp [production, h1]⟩⟩
  by_cases h2 : (req.recipe.map Prod.fst).filter
      (fun k => (List.lookup k PUMP_MAP).isNone) = []
  case neg =>
    refine Or.inl ⟨Or.inr (Or.inl ?_),
      ⟨.unknownIngredient ((req.recipe.map Prod.fst).filter
        (fun k => (List.lookup k PUMP_MAP).isNone)), ?_⟩⟩
    · obtain ⟨k, hk⟩ := List.exists_mem_of_ne_nil _ h2
      have hk2 := List.mem_filter.mp hk
      obtain ⟨p, hp, rfl⟩ := List.mem_map.mp hk2.1
      exact ⟨p, hp, Option.isNone_iff_eq_none.mp (by simpa using hk2.2)⟩
    · simp [production, h1, h2]
  case pos =>
  have hknown : ∀ p ∈ req.recipe, (List.lookup p.1 PUMP_MAP).isSome := by
    intro p hp
    cases h : List.lookup p.1 PUMP_MAP with
    | some v => simp
    | none =>
      have : p.1 ∈ (req.recipe.map Prod.fst).filter
          (fun k => (List.lookup k PUMP_MAP).isNone) :=
        List.mem_filter.mpr ⟨List.mem_map_of_mem _ hp, by simp [h]⟩
      rw [h2] at this
      simp at this
  by_cases h3 : MIN_ING ≤ req.recipe.length ∧ req.recipe.length ≤ MAX_ING
  case neg =>
    refine Or.inl ⟨?_, ⟨.countOutOfRange req.recipe.length, ?_⟩⟩
    · right; right
      rcases Nat.lt_or_ge req.recipe.length MIN_ING with h | h
      · exact Or.inl h
      · exact Or.inr (Or.inl (by by_contra h7; exact h3 ⟨h, by omega⟩))
    · simp [production, h1, h2, h3]
  case pos =>
  by_cases h4 : ∃ p ∈ req.recipe, PyFloat.lt p.2 (.fin 0) = true
  case pos =>
    obtain ⟨nm, hloop⟩ := valLoop_first_neg req.recipe initPumps (.fin 0) h4 hknown
    refine Or.inl ⟨Or.inr (Or.inr (Or.inr (Or.inr (Or.inl h4)))),
      ⟨.invalidAmount nm, ?_⟩⟩
    simp [production, h1, h2, h3, hloop]
  case neg =>
  have hnoneg : ∀ p ∈ req.recipe, PyFloat.lt p.2 (.fin 0) = false := by
    intro p hp
    rcases Bool.eq_false_or_eq_true (PyFloat.lt p.2 (.fin 0)) with h | h
    · exact absurd ⟨p, hp, h⟩ h4
    · exact h
  obtain ⟨pumps', hloop⟩ := valLoop_no_neg_ok req.recipe initPumps (.fin 0)
    hknown hnoneg
  by_cases h5 : totalInRange (pyTotal (req.recipe.map Prod.snd))
  case neg =>
    refine Or.inl ⟨Or.inr (Or.inr (Or.inr (Or.inr (Or.inr h5)))),
      ⟨.totalOutOfRange, ?_⟩⟩
    have h5' := h5
    simp only [pyTotal] at h5'
    simp [production, h1, h2, h3, hloop, h5']
  case pos =>
  refine Or.inr ⟨?_, ?_⟩
  · intro hfail
    rcases hfail with h | h | h | h | h | h
    · exact h1 h
    · obtain ⟨p, hp, hnone⟩ := h
      have := hknown p hp
      rw [hnone] at this
      simp at this
    · omega
    · omega
    · exact h4 h
    · exact h h5
  · intro k hk
    simp only [production, h1, Bool.false_eq_true, if_false, h2, hloop] at hk
    simp only [pyTotal] at h5
    simp [h3, h5] at hk
    cases hw : wireLine pumps' with
    | none => simp [hw] at hk
    | some line =>
      cases serial <;> simp [hw] at hk

theorem foldl_add_bad :
    ∀ (l : List PyFloat) (t : PyFloat), (t = .pinf ∨ t = .nan) →
    (l.foldl PyFloat.add t = .pinf ∨ l.foldl PyFloat.add t = .nan) := by
  intro l
  induction l with
  | nil => intro t h; simpa using h
  | cons v rest ih =>
    intro t h
    apply ih
    rcases h with rfl | rfl <;> cases v <;> simp [PyFloat.add]

theorem foldl_add_mem_bad :
    ∀ (l : List PyFloat) (t : PyFloat), (PyFloat.pinf ∈ l ∨ PyFloat.nan ∈ l) →
    (l.foldl PyFloat.add t = .pinf ∨ l.foldl PyFloat.add t = .nan) := by
  intro l
  induction l with
  | nil => intro t h; simp at h
  | cons v rest ih =>
    intro t h
    rcases h with h | h
    · rcases List.mem_cons.mp h with heq | hm
      · rw [List.foldl_cons, ← heq]
        apply foldl_add_bad
        cases t <;> simp [PyFloat.add]
      · exact ih _ (Or.inl hm)
    · rcases List.mem_cons.mp h with heq | hm
      · rw [List.foldl_cons, ← heq]
        apply foldl_add_bad
        cases t <;> simp [PyFloat.add]
      · exact ih _ (Or.inr hm)

theorem totalInRange_bad {t : PyFloat} (h : t = .pinf ∨ t = .nan) :
    ¬ totalInRange t := by
  rcases h with rfl | rfl <;> rintro ⟨h1, h2⟩ <;>
    simp [PyFloat.le, totalInRange] at h1 h2

/-! ## Claim theorems -/

/-- C1: for every validated recipe (all names in `PUMP_MAP`, distinct
ingredient count in `[1,7]`, every value a non-negative number, total in
`[14.0, 15.1]`), the value loop succeeds and its pump vector has exactly
10 entries, every entry is non-negative, the entries' sum equals the sum
of the recipe's values (exactly, in the rational model of floats), and
slot `j` holds exactly the accumulated sum of the values of the entries
whose name maps to pump `j` (so collisions accumulate rather than
overwrite). -/
theorem C1_pump_vector_encoder (r : List (String × ℚ))
    (hk : ∀ p ∈ r, (List.lookup p.1 PUMP_MAP).isSome)
    (hnn : ∀ p ∈ r, 0 ≤ p.2)
    (hc1 : MIN_ING ≤ r.length) (hc7 : r.length ≤ MAX_ING)
    (ht1 : ALLOWED_MIN_ML ≤ (r.map Prod.snd).sum)
    (ht2 : (r.map Prod.snd).sum ≤ ALLOWED_MAX_ML) :
    ∃ pumps : List PyFloat,
      valLoop (finRecipe r) initPumps (.fin 0)
        = .ok pumps (.fin ((r.map Prod.snd).sum)) ∧
      pumps.length = 10 ∧
      (∀ v ∈ pumps, ∃ q : ℚ, v = .fin q ∧ 0 ≤ q) ∧
      (∀ j, j < 10 → pumps.getD j (.fin 0) = .fin (slotSum r j)) ∧
      (pumps.map PyFloat.finPart).sum = (r.map Prod.snd).sum := by
  refine ⟨(encodeQ r (List.replicate 10 0)).map PyFloat.fin, ?_, ?_, ?_, ?_, ?_⟩
  · rw [initPumps_eq_map, valLoop_finRecipe r _ 0 hk hnn, zero_add]
  · simp [encodeQ_length]
  · intro v hv
    obtain ⟨q, hq, rfl⟩ := List.mem_map.mp hv
    obtain ⟨j, hj, rfl⟩ := List.mem_iff_getElem.mp hq
    refine ⟨_, rfl, ?_⟩
    have hlen : (encodeQ r (List.replicate 10 0)).length = 10 := by
      simp [encodeQ_length]
    have hj10 : j < 10 := by omega
    have := encodeQ_getD r (List.replicate 10 0) j hk (by simp) hj10
    rw [getD_replicate_zero, zero_add] at this
    rw [← List.getD_eq_getElem _ 0 hj, this]
    exact slotSum_nonneg r j hnn
  · intro j hj
    have hgd : ((encodeQ r (List.replicate 10 0)).map PyFloat.fin).getD j
        (PyFloat.fin 0) = PyFloat.fin ((encodeQ r (List.replicate 10 0)).getD j 0) :=
      List.getD_map _ 0 PyFloat.fin
    rw [hgd, encodeQ_getD r _ j hk (by simp) hj, getD_replicate_zero, zero_add]
  · have hmm : ∀ l : List ℚ, ((l.map PyFloat.fin).map PyFloat.finPart) = l := by
      intro l
      rw [List.map_map]
      have : PyFloat.finPart ∘ PyFloat.fin = id := by
        funext q; rfl
      rw [this, List.map_id]
    rw [hmm, encodeQ_sum r _ hk (by simp)]
    simp

/-- C2: every request that fails a validation check gets a 400, and
whenever the handler answers 400 the production state is unchanged and
nothing is written to the serial link. -/
theorem C2_validation_rejects_without_side_effects (fs : String → Bool)
    (serial : SerialMode) (st : ProdState) (req : PerfumeRequest) :
    ((∃ k, (production fs serial st req).1 = Resp.err400 k) →
      (production fs serial st req).2.1 = st ∧
      (production fs serial st req).2.2 = ([] : List String)) ∧
    (failsValidation req →
      ∃ k, (production fs serial st req).1 = Resp.err400 k) := by
  rcases production_master fs serial st req with ⟨_, k, hk⟩ | ⟨hnf, hno⟩
  · refine ⟨fun _ => ?_, fun _ => ⟨k, by rw [hk]⟩⟩
    rw [hk]
    exact ⟨rfl, rfl⟩
  · refine ⟨?_, fun hfail => absurd hfail hnf⟩
    rintro ⟨k, hk⟩
    exact absurd hk (hno k)

/-- C2 witness: an empty-recipe request against a concrete state is
rejected with a 400, leaves the state unchanged and writes nothing. -/
theorem C2_validation_rejects_without_side_effects_witness :
    (∃ k, (production (fun _ => false) SerialMode.openOk
        ⟨none, none, none, none, false, none⟩
        ⟨"이름", [], "cb", "pid"⟩).1 = Resp.err400 k) ∧
    (production (fun _ => false) SerialMode.openOk
        ⟨none, none, none, none, false, none⟩
        ⟨"이름", [], "cb", "pid"⟩).2.1
      = ⟨none, none, none, none, false, none⟩ ∧
    (production (fun _ => false) SerialMode.openOk
        ⟨none, none, none, none, false, none⟩
        ⟨"이름", [], "cb", "pid"⟩).2.2 = ([] : List String) := by
  have h := C2_validation_rejects_without_side_effects (fun _ => false)
    SerialMode.openOk ⟨none, none, none, none, false, none⟩
    ⟨"이름", [], "cb", "pid"⟩
  have hfail : failsValidation ⟨"이름", [], "cb", "pid"⟩ := Or.inl rfl
  obtain ⟨k, hk⟩ := h.2 hfail
  exact ⟨⟨k, hk⟩, (h.1 ⟨k, hk⟩).1, (h.1 ⟨k, hk⟩).2⟩

/-- C3 counterexample: the recipe `{오미자: inf}` contains a non-finite
value, yet validation rejects it with `TotalVolumeOutOfRange`, not
`InvalidAmount` — the code never checks finiteness per value, only
negativity (`val < 0` is false for `inf` and `nan`). -/
theorem C3_counterexample :
    production (fun _ => false) SerialMode.openOk
      ⟨none, none, none, none, false, none⟩
      ⟨"이름", [("오미자", PyFloat.pinf)], "cb", "pid"⟩
    = (Resp.err400 ErrKind.totalOutOfRange,
       ⟨none, none, none, none, false, none⟩, []) := by
  decide

/-- C3 amended: every value must be non-negative — a negative value
(including `-inf`) fails with `InvalidAmount` — but finiteness is not
checked per value: a recipe with known names and admissible count whose
values are all non-negative but include `inf` or `nan` is rejected by the
total-range check with `TotalVolumeOutOfRange` instead. -/
theorem C3_amended_invalid_amount (fs : String → Bool) (serial : SerialMode)
    (st : ProdState) (req : PerfumeRequest)
    (hk : ∀ p ∈ req.recipe, (List.lookup p.1 PUMP_MAP).isSome)
    (hc7 : req.recipe.length ≤ MAX_ING) :
    ((∃ p ∈ req.recipe, PyFloat.lt p.2 (.fin 0) = true) →
      ∃ n, (production fs serial st req).1 = .err400 (.invalidAmount n)) ∧
    ((∀ p ∈ req.recipe, PyFloat.lt p.2 (.fin 0) = false) →
      (PyFloat.pinf ∈ req.recipe.map Prod.snd ∨
        PyFloat.nan ∈ req.recipe.map Prod.snd) →
      (production fs serial st req).1 = .err400 .totalOutOfRange) := by
  have hfilter : (req.recipe.map Prod.fst).filter
      (fun k => (List.lookup k PUMP_MAP).isNone) = [] := by
    rw [List.filter_eq_nil_iff]
    intro a ha
    obtain ⟨p, hp, rfl⟩ := List.mem_map.mp ha
    have h := hk p hp
    cases hl : List.lookup p.1 PUMP_MAP with
    | none => rw [hl] at h; simp at h
    | some v => simp [hl]
  constructor
  · rintro ⟨p, hp, hneg⟩
    have hne : req.recipe ≠ [] := List.ne_nil_of_mem hp
    have h3 : MIN_ING ≤ req.recipe.length ∧ req.recipe.length ≤ MAX_ING :=
      ⟨List.length_pos.mpr hne, hc7⟩
    obtain ⟨n, hloop⟩ := valLoop_first_neg req.recipe initPumps (.fin 0)
      ⟨p, hp, hneg⟩ hk
    exact ⟨n, by simp [production, hne, hfilter, h3, hloop]⟩
  · intro hnoneg hbad
    have hne : req.recipe ≠ [] := by
      rcases hbad with h | h <;>
        · obtain ⟨p, hp, _⟩ := List.mem_map.mp h
          exact List.ne_nil_of_mem hp
    have h3 : MIN_ING ≤ req.recipe.length ∧ req.recipe.length ≤ MAX_ING :=
      ⟨List.length_pos.mpr hne, hc7⟩
    obtain ⟨pumps', hloop⟩ := valLoop_no_neg_ok req.recipe initPumps (.fin 0)
      hk hnoneg
    have hb := foldl_add_mem_bad (req.recipe.map Prod.snd) (.fin 0) hbad
    have hnr := totalInRange_bad hb
    simp [production, hne, hfilter, h3, hloop, hnr]

/-- C3 amended witness: `{오미자: -1}` fails with `InvalidAmount`, and
`{오미자: inf}` fails with `TotalVolumeOutOfRange`. -/
theorem C3_amended_invalid_amount_witness :
    (∃ n, (production (fun _ => false) SerialMode.openOk
        ⟨none, none, none, none, false, none⟩
        ⟨"이름", [("오미자", PyFloat.fin (mkRat (-1) 1))], "cb", "pid"⟩).1
      = .err400 (.invalidAmount n)) ∧
    (production (fun _ => false) SerialMode.openOk
        ⟨none, none, none, none, false, none⟩
        ⟨"이름", [("오미자", PyFloat.pinf)], "cb", "pid"⟩).1
      = .err400 .totalOutOfRange := by
  constructor
  · exact (C3_amended_invalid_amount (fun _ => false) SerialMode.openOk
      ⟨none, none, none, none, false, none⟩
      ⟨"이름", [("오미자", PyFloat.fin (mkRat (-1) 1))], "cb", "pid"⟩
      (by decide) (by decide)).1 (by decide)
  · exact (C3_amended_invalid_amount (fun _ => false) SerialMode.openOk
      ⟨none, none, none, none, false, none⟩
      ⟨"이름", [("오미자", PyFloat.pinf)], "cb", "pid"⟩
      (by decide) (by decide)).2 (by decide) (by decide)

/-- C4 counterexample: the validated recipe `{오미자: 2.001, 감나무: 12}`
(total 14.001) is serialized with first field `"2."` — the trailing-zero
strip of `f"{2.001:.2f}" = "2.00"` removes every decimal digit and the
`"." in s` guard keeps the bare point, so no decimal digit is retained,
contradicting the claimed format. -/
theorem C4_counterexample :
    fmtOne (.fin (mkRat 2001 1000)) = some "2." ∧
    ("2." : String).data.getLast? = some '.' ∧
    (production (fun _ => false) SerialMode.openOk
      ⟨none, none, none, none, false, none⟩
      ⟨"이름", [("오미자", PyFloat.fin (mkRat 2001 1000)), ("감나무", PyFloat.fin 12)],
        "cb", "pid"⟩).2.2
    = ["2.,12.0,0.0,0.0,0.0,0.0,0.0,0.0,0.0,0.0\n"] := by
  decide

theorem fmt_map_fin (qs : List ℚ) :
    ∃ fields, fmt (qs.map PyFloat.fin) = some fields ∧
      fields.length = qs.length := by
  induction qs with
  | nil => exact ⟨[], rfl, rfl⟩
  | cons q rest ih =>
    obtain ⟨fields, hf, hl⟩ := ih
    have hone : ∃ s, fmtOne (.fin q) = some s := by
      by_cases hd : q.den = 1 <;> simp [fmtOne, hd]
    obtain ⟨s, hs⟩ := hone
    refine ⟨s :: fields, ?_, by simp [hl]⟩
    simp [fmt, hs, hf]

/-- C4 amended: every finite pump value is rendered — an exact integer
with exactly one decimal (`3 → "3.0"`), otherwise with two decimals and
trailing zeros stripped (`2.25 → "2.25"`, `2.2 → "2.2"`), which can strip
every decimal digit leaving a bare trailing point (`2.001 → "2."`); a
vector of `n` finite values yields exactly `n` fields, comma-joined and
newline-terminated, so `{오미자: 3, 감나무: 4}` encodes and serializes to
`"3.0,4.0,0.0,...,0.0\n"` with 10 fields. -/
theorem C4_amended_wire_format :
    (∀ qs : List ℚ, ∃ fields, fmt (qs.map PyFloat.fin) = some fields ∧
      fields.length = qs.length) ∧
    fmtOne (.fin 3) = some "3.0" ∧
    fmtOne (.fin (mkRat 9 4)) = some "2.25" ∧
    fmtOne (.fin (mkRat 11 5)) = some "2.2" ∧
    fmtOne (.fin (mkRat 2001 1000)) = some "2." ∧
    valLoop [("오미자", .fin 3), ("감나무", .fin 4)] initPumps (.fin 0)
      = .ok [.fin 3, .fin 4, .fin 0, .fin 0, .fin 0,
             .fin 0, .fin 0, .fin 0, .fin 0, .fin 0] (.fin 7) ∧
    wireLine [.fin 3, .fin 4, .fin 0, .fin 0, .fin 0,
              .fin 0, .fin 0, .fin 0, .fin 0, .fin 0]
      = some "3.0,4.0,0.0,0.0,0.0,0.0,0.0,0.0,0.0,0.0\n" :=
  ⟨fmt_map_fin, by decide, by decide, by decide, by decide, by decide, by decide⟩

/-- C5 counterexample: for the name `"소 나무"` (the preset `"소나무"`
written with an extra internal space) the cleaned name is in the preset
set and the preset asset exists on disk, yet `select_template` returns
`none`: the source tests the **raw** name against `NAME_SET` and only
uses the cleaned name as the file key, so the extra-space name falls
through to the custom branch. -/
theorem C5_counterexample :
    removeSpaces "소 나무" ∈ NAME_SET ∧
    (fun p => p == origPath (removeSpaces "소 나무")) (origPath "소나무") = true ∧
    select_template (fun p => p == origPath (removeSpaces "소 나무"))
      "소 나무" [("소나무", PyFloat.fin 15)] = none := by
  decide

/-- C5 amended: the preset branch is taken exactly when the **raw** name
is in the fixed preset set; in that branch the asset is keyed by the
cleaned (space-stripped) name — a no-op for every actual preset name —
and a missing file yields `none`; any other name takes the custom branch,
whose result is a count-keyed custom asset or `none`. -/
theorem C5_amended_template_selection (fs : String → Bool) (name : String)
    (recipe : List (String × PyFloat)) :
    (name ∈ NAME_SET →
      (select_template fs name recipe = some (origPath (removeSpaces name))
        ↔ fs (origPath (removeSpaces name)) = true) ∧
      (¬ fs (origPath (removeSpaces name)) = true →
        select_template fs name recipe = none)) ∧
    (name ∉ NAME_SET →
      ∀ p, select_template fs name recipe = some p →
        p = customPathJpg (countUsedIngredients recipe) ∨
        p = customPathPng (countUsedIngredients recipe)) ∧
    (∀ m ∈ NAME_SET, removeSpaces m = m) := by
  refine ⟨?_, ?_, by decide⟩
  · intro hmem
    refine ⟨⟨?_, ?_⟩, ?_⟩
    · intro hsel
      cases hfs : fs (origPath (removeSpaces name)) with
      | true => rfl
      | false => simp [select_template, hmem, hfs] at hsel
    · intro hfs
      simp [select_template, hmem, hfs]
    · intro hfs
      have hfalse : fs (origPath (removeSpaces name)) = false := by
        cases h : fs (origPath (removeSpaces name)) with
        | true => exact absurd h hfs
        | false => rfl
      simp [select_template, hmem, hfalse]
  · intro hmem p hsel
    have hnm : (name ∈ NAME_SET) = False := by simp [hmem]
    simp only [select_template, hnm, if_false] at hsel
    cases h1 : fs (customPathJpg (countUsedIngredients recipe)) with
    | true =>
      simp [h1] at hsel
      first
      | exact Or.inl hsel
      | exact Or.inl hsel.symm
    | false =>
      cases h2 : fs (customPathPng (countUsedIngredients recipe)) with
      | true =>
        simp [h1, h2] at hsel
        first
        | exact Or.inr hsel
        | exact Or.inr hsel.symm
      | false => simp [h1, h2] at hsel

/-- C5 amended witness: for the preset name `"소나무"` with its asset
present, the preset path is selected; with the asset absent the result is
`none`; and for the non-preset `"소 나무"` any selected template is a
custom asset. -/
theorem C5_amended_template_selection_witness :
    (select_template (fun p => p == origPath "소나무") "소나무" []
        = some (origPath (removeSpaces "소나무"))
      ↔ (fun p => p == origPath "소나무") (origPath (removeSpaces "소나무")) = true) ∧
    select_template (fun _ => false) "소나무" [] = none ∧
    (∀ p, select_template (fun _ => false) "소 나무" [] = some p →
      p = customPathJpg (countUsedIngredients []) ∨
      p = customPathPng (countUsedIngredients [])) := by
  refine ⟨?_, ?_, ?_⟩
  · exact (C5_amended_template_selection (fun p => p == origPath "소나무")
      "소나무" [] ).1 (by decide) |>.1
  · exact (C5_amended_template_selection (fun _ => false) "소나무" []).1
      (by decide) |>.2 (by decide)
  · exact (C5_amended_template_selection (fun _ => false) "소 나무" []).2.1
      (by decide)

/-- C6: evaluation at the failing input.  After 11 `overlay_now` saves
(the timestamp-only overlays, written as `receipt_*.jpg`) **all 11**
files remain — `_prune_old` globs only `receipt_*.png`, so the jpg
overlays are never evicted, violating the claimed retention invariant of
exactly `KEEP_IMAGES = 10` most-recent files.  The custom receipts
(written as `receipt_*.png`) are correctly pruned to 10, which isolates
the glob/extension mismatch as the cause. -/
theorem C6_jpg_overlays_never_pruned :
    (overlayRun 11).length = 11 ∧
    (composeRun 11).length = 10 ∧
    KEEP_IMAGES = 10 := by
  decide

/-- C7: `_stable_sort_by_amount` orders the receipt-table rows by
descending amount with ties in input order: on `{A: 5, B: 10, C: 5}` it
yields `B, A, C`; in general the output is a permutation of the input,
values are in descending order, and the index-decorated list it projects
from is sorted by the stable key — strictly descending value, or equal
value and strictly increasing original index. -/
theorem C7_stable_sort_by_amount :
    stable_sort_by_amount [("A", 5), ("B", 10), ("C", 5)]
      = [("B", 10), ("A", 5), ("C", 5)] ∧
    (∀ r : List (String × ℚ), (stable_sort_by_amount r).Perm r) ∧
    (∀ r : List (String × ℚ),
      (stable_sort_by_amount r).Pairwise (fun a b => b.2 ≤ a.2)) ∧
    (∀ r : List (String × ℚ),
      (stableSortEnum r).Pairwise
        (fun a b => b.2.2 < a.2.2 ∨ (a.2.2 = b.2.2 ∧ a.1 < b.1))) := by
  have hperm : ∀ r : List (String × ℚ),
      (stableSortEnum r).Perm r.enum :=
    fun r => List.perm_insertionSort amountKeyLe r.enum
  have hsorted : ∀ r : List (String × ℚ),
      (stableSortEnum r).Pairwise amountKeyLe :=
    fun r => List.sorted_insertionSort amountKeyLe r.enum
  have hstrict : ∀ r : List (String × ℚ),
      (stableSortEnum r).Pairwise
        (fun a b => b.2.2 < a.2.2 ∨ (a.2.2 = b.2.2 ∧ a.1 < b.1)) := by
    intro r
    have hnodup : ((stableSortEnum r).map Prod.fst).Nodup := by
      have hp : ((stableSortEnum r).map Prod.fst).Perm (r.enum.map Prod.fst) :=
        (hperm r).map Prod.fst
      rw [hp.nodup_iff, List.enum_map_fst]
      exact List.nodup_range _
    have hne : (stableSortEnum r).Pairwise (fun a b => a.1 ≠ b.1) :=
      (List.pairwise_map.mp hnodup)
    exact ((hsorted r).and hne).imp (fun {a b} h => by
      rcases h with ⟨hk | ⟨heq, hle⟩, hne⟩
      · exact Or.inl hk
      · exact Or.inr ⟨heq, lt_of_le_of_ne hle hne⟩)
  refine ⟨by decide, ?_, ?_, hstrict⟩
  · intro r
    have : (stableSortEnum r).map Prod.snd
        |>.Perm (r.enum.map Prod.snd) := (hperm r).map Prod.snd
    rw [List.enum_map_snd] at this
    exact this
  · intro r
    have := List.Pairwise.map (R := amountKeyLe)
      (S := fun a b : String × ℚ => b.2 ≤ a.2) Prod.snd ?_ (hsorted r)
    · exact this
    · intro a b h
      rcases h with h | ⟨h, _⟩
      · exact le_of_lt h
      · exact le_of_eq h.symm

/-- C8: in the completion handler the cartridge-usage PATCH, the
production-done callback and the print step are independently
fault-isolated: with a template, callback URL and production id present,
whenever the cartridge call fails or raises, the production callback and
the print step still execute (and the trace of executed steps does not
depend on any call's outcome at all, since `notify_cartridge_used`
catches every exception and the print step sits in a `finally`). -/
theorem C8_completion_fault_isolation (st : ProdState) (w : DoneWorld)
    (ht : st.current_template.isSome)
    (hc : st.current_callback_url.isSome)
    (hp : st.current_production_id.isSome)
    (hfail : w.patchOutcome ≠ .status 200) :
    Ev.cartridgePatch ∈ serial_done_worker st w ∧
    Ev.productionCallback ∈ serial_done_worker st w ∧
    Ev.printStep ∈ serial_done_worker st w ∧
    (∀ w' : DoneWorld, serial_done_worker st w = serial_done_worker st w') := by
  refine ⟨?_, ?_, ?_, ?_⟩ <;>
    simp [serial_done_worker, notify_cartridge_used, handle_production_done,
      ht, hc, hp]

/-- C8 witness: with all state present and the cartridge PATCH raising a
transport error, the callback and print step still run. -/
theorem C8_completion_fault_isolation_witness :
    Ev.cartridgePatch ∈ serial_done_worker
      ⟨some "나무", some "cb", some "pid", some "이름", false, none⟩
      ⟨.transportError, .status 200⟩ ∧
    Ev.productionCallback ∈ serial_done_worker
      ⟨some "나무", some "cb", some "pid", some "이름", false, none⟩
      ⟨.transportError, .status 200⟩ ∧
    Ev.printStep ∈ serial_done_worker
      ⟨some "나무", some "cb", some "pid", some "이름", false, none⟩
      ⟨.transportError, .status 200⟩ ∧
    (∀ w' : DoneWorld, serial_done_worker
        ⟨some "나무", some "cb", some "pid", some "이름", false, none⟩
        ⟨.transportError, .status 200⟩
      = serial_done_worker
        ⟨some "나무", some "cb", some "pid", some "이름", false, none⟩ w') :=
  C8_completion_fault_isolation
    ⟨some "나무", some "cb", some "pid", some "이름", false, none⟩
    ⟨.transportError, .status 200⟩ (by decide) (by decide) (by decide) (by decide)

/-- C9: a QR line is forwarded only when it is a member of `VALID_QR`
and matches the permitted-character pattern; a repeat within the
`QR_RET_SEC` debounce window (measured from the recorded last-sent time)
is never forwarded and leaves the table unchanged; and the last-sent
timestamp is updated only on a sub-400 response, in which case it is set
to `now`. -/
theorem C9_qr_debounce (last : List (String × ℚ)) (qr : String) (now : ℚ)
    (resp : HttpOutcome) :
    ((handle_qr last qr now resp).1 = true →
      qr ∈ VALID_QR ∧ qrPatMatch qr = true) ∧
    (now - lastGet last qr < QR_RET_SEC →
      (handle_qr last qr now resp).1 = false ∧
      (handle_qr last qr now resp).2 = last) ∧
    ((handle_qr last qr now resp).2 ≠ last →
      (handle_qr last qr now resp).1 = true ∧
      (∃ n, resp = .status n ∧ n < 400) ∧
      lastGet (handle_qr last qr now resp).2 qr = now) ∧
    ((∀ n, resp = .status n → 400 ≤ n) →
      (handle_qr last qr now resp).2 = last) := by
  by_cases h1 : ¬ (qr ∈ VALID_QR) ∨ qrPatMatch qr = false
  · refine ⟨?_, ?_, ?_, ?_⟩ <;> simp [handle_qr, h1]
  · have hmem : qr ∈ VALID_QR := by
      by_contra h
      exact h1 (Or.inl h)
    have hpat : qrPatMatch qr = true := by
      cases h : qrPatMatch qr with
      | false => exact absurd (Or.inr h) h1
      | true => rfl
    by_cases h2 : now - lastGet last qr < QR_RET_SEC
    · refine ⟨?_, ?_, ?_, ?_⟩ <;>
        simp [handle_qr, hmem, hpat, h2]
    · have hset : lastGet (lastSet last qr now) qr = now := by
        simp [lastGet, lastSet, List.lookup]
      refine ⟨fun _ => ⟨hmem, hpat⟩, fun h => absurd h h2, ?_, ?_⟩
      · intro hch
        cases resp with
        | status n =>
          by_cases hn : n < 400
          · have hr : handle_qr last qr now (.status n)
                = (true, lastSet last qr now) := by
              simp [handle_qr, hmem, hpat, h2, hn]
            rw [hr]
            exact ⟨rfl, ⟨n, rfl, hn⟩, hset⟩
          · exact absurd (by simp [handle_qr, hmem, hpat, h2, hn]) hch
        | transportError =>
          exact absurd (by simp [handle_qr, hmem, hpat, h2]) hch
        | otherError =>
          exact absurd (by simp [handle_qr, hmem, hpat, h2]) hch
      · intro hge
        cases resp with
        | status n =>
          have hn : ¬ n < 400 := by
            have := hge n rfl
            omega
          simp [handle_qr, hmem, hpat, h2, hn]
        | transportError => simp [handle_qr, hmem, hpat, h2]
        | otherError => simp [handle_qr, hmem, hpat, h2]

/-- C9 witness: a fresh valid QR value with a 200 response is forwarded
and its timestamp recorded; within 3 seconds a repeat is suppressed. -/
theorem C9_qr_debounce_witness :
    ((handle_qr [] "배롱나무" 100 (.status 200)).1 = true →
      "배롱나무" ∈ VALID_QR ∧ qrPatMatch "배롱나무" = true) ∧
    ((100 : ℚ) - lastGet [("배롱나무", 99)] "배롱나무" < QR_RET_SEC →
      (handle_qr [("배롱나무", 99)] "배롱나무" 100 (.status 200)).1 = false ∧
      (handle_qr [("배롱나무", 99)] "배롱나무" 100 (.status 200)).2
        = [("배롱나무", 99)]) := by
  refine ⟨?_, ?_⟩
  · exact (C9_qr_debounce [] "배롱나무" 100 (.status 200)).1
  · exact (C9_qr_debounce [("배롱나무", 99)] "배롱나무" 100 (.status 200)).2.1

/-- C10: when the serial port is unavailable (never opened, or not open)
a fully valid order still overwrites the single-slot production state and
gets the 200 success response; the 500 serial-failure response occurs
exactly when the write to an open port raises. -/
theorem C10_serial_unavailable_still_succeeds (fs : String → Bool)
    (st : ProdState) (name cb pid : String) (r : List (String × ℚ))
    (hk : ∀ p ∈ r, (List.lookup p.1 PUMP_MAP).isSome)
    (hnn : ∀ p ∈ r, 0 ≤ p.2)
    (hc1 : MIN_ING ≤ r.length) (hc7 : r.length ≤ MAX_ING)
    (ht1 : ALLOWED_MIN_ML ≤ (r.map Prod.snd).sum)
    (ht2 : (r.map Prod.snd).sum ≤ ALLOWED_MAX_ML) :
    production fs .absent st ⟨name, finRecipe r, cb, pid⟩
      = (.ok pid,
         ⟨select_template fs name (finRecipe r), some cb, some pid, some name,
          !(decide (name ∈ NAME_SET)), some (finRecipe r)⟩, []) ∧
    production fs .notOpen st ⟨name, finRecipe r, cb, pid⟩
      = (.ok pid,
         ⟨select_template fs name (finRecipe r), some cb, some pid, some name,
          !(decide (name ∈ NAME_SET)), some (finRecipe r)⟩, []) ∧
    (∀ serial, (production fs serial st ⟨name, finRecipe r, cb, pid⟩).1
        = .err500 ↔ serial = .openFails) := by
  have hne : finRecipe r ≠ [] := by
    intro h
    have hz : r.length = 0 := by simpa [finRecipe] using congrArg List.length h
    have h1 : (1 : Nat) ≤ r.length := hc1
    omega
  have hfilter : ((finRecipe r).map Prod.fst).filter
      (fun k => (List.lookup k PUMP_MAP).isNone) = [] := by
    rw [List.filter_eq_nil_iff]
    intro a ha
    obtain ⟨p, hp, rfl⟩ := List.mem_map.mp ha
    obtain ⟨p0, hp0, rfl⟩ := List.mem_map.mp hp
    have h := hk p0 hp0
    cases hl : List.lookup (p0.1, PyFloat.fin p0.2).1 PUMP_MAP with
    | none => rw [show (p0.1, PyFloat.fin p0.2).1 = p0.1 from rfl, hl] at h; simp at h
    | some v => simp [hl]
  have hlen : (finRecipe r).length = r.length := by simp [finRecipe]
  have h3 : MIN_ING ≤ (finRecipe r).length ∧ (finRecipe r).length ≤ MAX_ING := by
    rw [hlen]; exact ⟨hc1, hc7⟩
  have hloop := valLoop_finRecipe r (List.replicate 10 0) 0 hk hnn
  rw [← initPumps_eq_map, zero_add] at hloop
  set P := encodeQ r (List.replicate 10 0) with hP
  have hrange : totalInRange (PyFloat.fin ((r.map Prod.snd).sum)) := by
    constructor
    · simp [PyFloat.le, ht1]
    · simp [PyFloat.le, ht2]
  obtain ⟨fields, hfmt, hflen⟩ := fmt_map_fin P
  have hwire : wireLine (P.map PyFloat.fin)
      = some (String.intercalate "," fields ++ "\n") := by
    simp [wireLine, hfmt]
  refine ⟨?_, ?_, ?_⟩
  · simp [production, hne, hfilter, h3, hloop, hrange, hwire]
  · simp [production, hne, hfilter, h3, hloop, hrange, hwire]
  · intro serial
    cases serial <;>
      simp [production, hne, hfilter, h3, hloop, hrange, hwire]

/-- C10 witness: the valid order `{오미자: 14}` with the serial port
never opened still succeeds and records the new state; only the
raising-write mode produces a 500. -/
theorem C10_serial_unavailable_still_succeeds_witness :
    production (fun _ => false) .absent
      ⟨none, none, none, none, false, none⟩
      ⟨"커스텀", finRecipe [("오미자", 14)], "cb", "pid"⟩
      = (.ok "pid",
         ⟨select_template (fun _ => false) "커스텀" (finRecipe [("오미자", 14)]),
          some "cb", some "pid", some "커스텀",
          !(decide (("커스텀" : String) ∈ NAME_SET)),
          some (finRecipe [("오미자", 14)])⟩, []) ∧
    production (fun _ => false) .notOpen
      ⟨none, none, none, none, false, none⟩
      ⟨"커스텀", finRecipe [("오미자", 14)], "cb", "pid"⟩
      = (.ok "pid",
         ⟨select_template (fun _ => false) "커스텀" (finRecipe [("오미자", 14)]),
          some "cb", some "pid", some "커스텀",
          !(decide (("커스텀" : String) ∈ NAME_SET)),
          some (finRecipe [("오미자", 14)])⟩, []) ∧
    (∀ serial, (production (fun _ => false) serial
        ⟨none, none, none, none, false, none⟩
        ⟨"커스텀", finRecipe [("오미자", 14)], "cb", "pid"⟩).1
      = .err500 ↔ serial = .openFails) :=
  C10_serial_unavailable_still_succeeds (fun _ => false)
    ⟨none, none, none, none, false, none⟩ "커스텀" "cb" "pid" [("오미자", 14)]
    (by decide) (by decide) (by decide) (by decide)
    (by norm_num [ALLOWED_MIN_ML]) (by norm_num [ALLOWED_MAX_ML, Rat.mkRat_eq_div])

/-- C1 witness: the single-entry recipe `{오미자: 14.0}` is validated and
encoded with all the properties of `C1_pump_vector_encoder`. -/
theorem C1_pump_vector_encoder_witness :
    ∃ pumps : List PyFloat,
      valLoop (finRecipe [(("오미자" : String), (14 : ℚ))]) initPumps (.fin 0)
        = .ok pumps (.fin (([(("오미자" : String), (14 : ℚ))].map Prod.snd).sum)) ∧
      pumps.length = 10 ∧
      (∀ v ∈ pumps, ∃ q : ℚ, v = .fin q ∧ 0 ≤ q) ∧
      (∀ j, j < 10 → pumps.getD j (.fin 0)
        = .fin (slotSum [(("오미자" : String), (14 : ℚ))] j)) ∧
      (pumps.map PyFloat.finPart).sum
        = (([(("오미자" : String), (14 : ℚ))].map Prod.snd).sum) :=
  C1_pump_vector_encoder [("오미자", 14)]
    (by decide) (by decide) (by decide) (by decide) (by norm_num [ALLOWED_MIN_ML])
    (by norm_num [ALLOWED_MAX_ML])

end SosHw
